import Mathlib

/-!
Verification of the geometric transformation engine of
ObservedObserver/world-map-reality: the spherical rotation builder
(createSphericalRotation), the recursive geometry rotator and scaler
(rotateGeometry, scaleGeometry), and the Mercator scale formula
(getMercatorScale).  Definitions are transcribed from the source
(src/utils/geo re-exported via src/hooks/useCountryData.ts,
src/utils/formatters.ts, src/constants.ts); JavaScript numbers are
modelled as exact numbers (a linear ordered field for the structural
operations, the reals for the trigonometric ones) and Math.atan2 is
modelled through Complex.arg, whose mathematical definition it matches.
-/

namespace WorldMap

/-- Source clamp: `Math.min(Math.max(value, min), max)`. -/
def clamp {α : Type} [LinearOrder α] (value lo hi : α) : α :=
  min (max value lo) hi

/-- Source constant `MAX_LATITUDE = 89.9` from src/constants.ts, written 899/10. -/
def MAX_LATITUDE {α : Type} [DivisionRing α] : α := 899 / 10

/-- GeoJSON-style geometry, the tagged union the source switches over.  The
`other` constructor stands for any geometry whose `type` string is none of the
seven known kinds, which the source's `default` branch passes through. -/
inductive Geometry (α : Type) : Type where
  | point (coordinates : List α)
  | multiPoint (coordinates : List (List α))
  | lineString (coordinates : List (List α))
  | multiLineString (coordinates : List (List (List α)))
  | polygon (coordinates : List (List (List α)))
  | multiPolygon (coordinates : List (List (List (List α))))
  | geometryCollection (geometries : List (Geometry α))
  | other (tag : String)

variable {α : Type} [LinearOrderedField α]

/-- Inner `rotatePosition` of the source's rotateGeometry: rotate the first two
numbers of the position and keep the rest.  In the source both arms of
`coord.length > 2 ? [lon, lat, ...coord.slice(2)] : [lon, lat]` equal
`[lon, lat] ++ coord.slice(2)`, which is how it is written here. -/
def rotatePosition (rotate : α × α → α × α) (coord : List α) : List α :=
  let p := rotate (coord.headD 0, (coord.drop 1).headD 0)
  p.1 :: p.2 :: coord.drop 2

/-- Inner `scalePosition` of the source's scaleGeometry: move the first two
numbers away from the center by `factor`, clamp latitude to ±MAX_LATITUDE and
longitude to ±180, keep the rest of the position. -/
def scalePosition (center : α × α) (factor : α) (coord : List α) : List α :=
  let lon := center.1 + (coord.headD 0 - center.1) * factor
  let lat := clamp (center.2 + ((coord.drop 1).headD 0 - center.2) * factor)
    (-MAX_LATITUDE) MAX_LATITUDE
  let clampedLon := clamp lon (-180) 180
  clampedLon :: lat :: coord.drop 2

/-- Source rotateGeometry: apply a coordinate transform to every position of a
geometry, recursing through collections, passing unknown kinds through. -/
def rotateGeometry (geometry : Geometry α) (rotate : α × α → α × α) :
    Geometry α :=
  match geometry with
  | .point c => .point (rotatePosition rotate c)
  | .multiPoint cs => .multiPoint (cs.map (rotatePosition rotate))
  | .lineString cs => .lineString (cs.map (rotatePosition rotate))
  | .multiLineString cs =>
      .multiLineString (cs.map (fun line => line.map (rotatePosition rotate)))
  | .polygon cs =>
      .polygon (cs.map (fun line => line.map (rotatePosition rotate)))
  | .multiPolygon cs =>
      .multiPolygon (cs.map (fun poly =>
        poly.map (fun ring => ring.map (rotatePosition rotate))))
  | .geometryCollection gs =>
      .geometryCollection (gs.attach.map (fun geom => rotateGeometry geom.1 rotate))
  | .other tag => .other tag
termination_by sizeOf geometry
decreasing_by
  have h := List.sizeOf_lt_of_mem geom.2
  simp only [Geometry.geometryCollection.sizeOf_spec]
  omega

/-- Source scaleGeometry: scale every position of a geometry about a center,
recursing through collections, passing unknown kinds through. -/
def scaleGeometry (geometry : Geometry α) (center : α × α) (factor : α) :
    Geometry α :=
  match geometry with
  | .point c => .point (scalePosition center factor c)
  | .multiPoint cs => .multiPoint (cs.map (scalePosition center factor))
  | .lineString cs => .lineString (cs.map (scalePosition center factor))
  | .multiLineString cs =>
      .multiLineString (cs.map (fun line =>
        line.map (scalePosition center factor)))
  | .polygon cs =>
      .polygon (cs.map (fun line => line.map (scalePosition center factor)))
  | .multiPolygon cs =>
      .multiPolygon (cs.map (fun poly =>
        poly.map (fun ring => ring.map (scalePosition center factor))))
  | .geometryCollection gs =>
      .geometryCollection
        (gs.attach.map (fun geom => scaleGeometry geom.1 center factor))
  | .other tag => .other tag
termination_by sizeOf geometry
decreasing_by
  have h := List.sizeOf_lt_of_mem geom.2
  simp only [Geometry.geometryCollection.sizeOf_spec]
  omega

/-- The shape of a geometry: its tag and the nesting structure with every list
length at every level, forgetting only the numeric values of the leaves. -/
def shape (geometry : Geometry α) : Geometry Unit :=
  match geometry with
  | .point c => .point (c.map (fun _ => ()))
  | .multiPoint cs => .multiPoint (cs.map (fun c => c.map (fun _ => ())))
  | .lineString cs => .lineString (cs.map (fun c => c.map (fun _ => ())))
  | .multiLineString cs =>
      .multiLineString (cs.map (fun line =>
        line.map (fun c => c.map (fun _ => ()))))
  | .polygon cs =>
      .polygon (cs.map (fun line => line.map (fun c => c.map (fun _ => ()))))
  | .multiPolygon cs =>
      .multiPolygon (cs.map (fun poly =>
        poly.map (fun ring => ring.map (fun c => c.map (fun _ => ())))))
  | .geometryCollection gs =>
      .geometryCollection (gs.attach.map (fun geom => shape geom.1))
  | .other tag => .other tag
termination_by sizeOf geometry
decreasing_by
  have h := List.sizeOf_lt_of_mem geom.2
  simp only [Geometry.geometryCollection.sizeOf_spec]
  omega

/-- Every position of the geometry satisfies the boolean predicate `P`. -/
def posAll (P : List α → Bool) (geometry : Geometry α) : Bool :=
  match geometry with
  | .point c => P c
  | .multiPoint cs => cs.all P
  | .lineString cs => cs.all P
  | .multiLineString cs => cs.all (fun line => line.all P)
  | .polygon cs => cs.all (fun line => line.all P)
  | .multiPolygon cs =>
      cs.all (fun poly => poly.all (fun ring => ring.all P))
  | .geometryCollection gs => gs.attach.all (fun geom => posAll P geom.1)
  | .other _ => true
termination_by sizeOf geometry
decreasing_by
  have h := List.sizeOf_lt_of_mem geom.2
  simp only [Geometry.geometryCollection.sizeOf_spec]
  omega

/-- The first two entries of a position are a longitude in [-180, 180] and a
latitude in [-MAX_LATITUDE, MAX_LATITUDE]. -/
def posInRange (coord : List α) : Bool :=
  decide (-180 ≤ coord.headD 0) && decide (coord.headD 0 ≤ 180) &&
    decide (-MAX_LATITUDE ≤ (coord.drop 1).headD 0) &&
    decide ((coord.drop 1).headD 0 ≤ MAX_LATITUDE)

/-- A position on which scaling by `factor` about `center` triggers no clamp
in either direction of a round trip: it has a proper longitude/latitude pair,
both original values are inside the clamp ranges (so the second, inverse pass
does not clamp), and both scaled values are inside the clamp ranges (so the
first pass does not clamp). -/
def roundTripOK (center : α × α) (factor : α) (coord : List α) : Bool :=
  decide (2 ≤ coord.length) &&
    decide (-180 ≤ coord.headD 0) && decide (coord.headD 0 ≤ 180) &&
    decide (-MAX_LATITUDE ≤ (coord.drop 1).headD 0) &&
    decide ((coord.drop 1).headD 0 ≤ MAX_LATITUDE) &&
    decide (-180 ≤ center.1 + (coord.headD 0 - center.1) * factor) &&
    decide (center.1 + (coord.headD 0 - center.1) * factor ≤ 180) &&
    decide (-MAX_LATITUDE ≤ center.2 + ((coord.drop 1).headD 0 - center.2) * factor) &&
    decide (center.2 + ((coord.drop 1).headD 0 - center.2) * factor ≤ MAX_LATITUDE)

noncomputable section

/-- A longitude/latitude pair in degrees (the source's LonLat type). -/
abbrev LonLat : Type := ℝ × ℝ

/-- A 3-vector (the source's Vec3 type). -/
abbrev Vec3 : Type := ℝ × ℝ × ℝ

/-- Source constant `DEG_TO_RAD = Math.PI / 180`. -/
def DEG_TO_RAD : ℝ := Real.pi / 180

/-- Source constant `RAD_TO_DEG = 180 / Math.PI`. -/
def RAD_TO_DEG : ℝ := 180 / Real.pi

/-- Source constant `ROTATION_EPSILON = 1e-6`. -/
def ROTATION_EPSILON : ℝ := 1e-6

/-- Model of `Math.atan2 y x`: the argument of the complex number `x + y*i`,
which is exactly the mathematical atan2 (range (-pi, pi], sign of `y` decides
the half plane for `x < 0`, and `atan2 0 0 = 0`). -/
def arctan2 (y x : ℝ) : ℝ := Complex.arg ⟨x, y⟩

/-- Source lonLatToVector: degrees to a unit vector on the sphere. -/
def lonLatToVector (p : LonLat) : Vec3 :=
  let lambda := p.1 * DEG_TO_RAD
  let phi := p.2 * DEG_TO_RAD
  let cosPhi := Real.cos phi
  (cosPhi * Real.cos lambda, cosPhi * Real.sin lambda, Real.sin phi)

/-- Source vectorToLonLat: a vector back to degrees, via atan2. -/
def vectorToLonLat (v : Vec3) : LonLat :=
  let lon := arctan2 v.2.1 v.1 * RAD_TO_DEG
  let hyp := Real.sqrt (v.1 * v.1 + v.2.1 * v.2.1)
  let lat := arctan2 v.2.2 hyp * RAD_TO_DEG
  (lon, lat)

/-- Source cross product. -/
def cross (a b : Vec3) : Vec3 :=
  (a.2.1 * b.2.2 - a.2.2 * b.2.1,
   a.2.2 * b.1 - a.1 * b.2.2,
   a.1 * b.2.1 - a.2.1 * b.1)

/-- Source dot product. -/
def dot (a b : Vec3) : ℝ :=
  a.1 * b.1 + a.2.1 * b.2.1 + a.2.2 * b.2.2

/-- Model of `Math.hypot a b c`, as used on Vec3 values in the source. -/
def hypot3 (v : Vec3) : ℝ :=
  Real.sqrt (v.1 ^ 2 + v.2.1 ^ 2 + v.2.2 ^ 2)

/-- Source normalize: zero vector below ROTATION_EPSILON, else divide by the
length. -/
def normalize (value : Vec3) : Vec3 :=
  let length := hypot3 value
  if length < ROTATION_EPSILON then (0, 0, 0)
  else (value.1 / length, value.2.1 / length, value.2.2 / length)

/-- The `angle` local of the source's createSphericalRotation:
`acos(clamp(dot(fromVec, toVec), -1, 1))`, the great-circle angular distance
between the two points. -/
def rotationAngle (p q : LonLat) : ℝ :=
  Real.arccos (clamp (dot (lonLatToVector p) (lonLatToVector q)) (-1) 1)

/-- The `axis` local of the source's createSphericalRotation: the normalized
cross product of the endpoint vectors, with the deterministic fallback
(`[1,0,0]` when `|fromVec.x| < 0.9`, else `[0,1,0]`) when the raw cross
product's magnitude is below ROTATION_EPSILON. -/
def rotationAxis (p q : LonLat) : Vec3 :=
  let fromVec := lonLatToVector p
  let toVec := lonLatToVector q
  let axis := cross fromVec toVec
  let axis1 :=
    if hypot3 axis < ROTATION_EPSILON then
      cross fromVec (if |fromVec.1| < 0.9 then ((1 : ℝ), (0 : ℝ), (0 : ℝ))
        else ((0 : ℝ), (1 : ℝ), (0 : ℝ)))
    else axis
  normalize axis1

/-- The body of the closure returned by createSphericalRotation in the
non-identity case: the Rodrigues rotation formula
`v*cos + (axis x v)*sin + axis*(axis . v)*(1 - cos)`. -/
def applyRotation (axis : Vec3) (cosAngle sinAngle : ℝ) (v : Vec3) : Vec3 :=
  let crossAxis := cross axis v
  let dotAxis := dot axis v
  let oneMinusCos := 1 - cosAngle
  (v.1 * cosAngle + crossAxis.1 * sinAngle + axis.1 * dotAxis * oneMinusCos,
   v.2.1 * cosAngle + crossAxis.2.1 * sinAngle + axis.2.1 * dotAxis * oneMinusCos,
   v.2.2 * cosAngle + crossAxis.2.2 * sinAngle + axis.2.2 * dotAxis * oneMinusCos)

/-- Source createSphericalRotation: the identity function when the angular
distance is below ROTATION_EPSILON, otherwise the Rodrigues rotation about
rotationAxis by rotationAngle, conjugated by the degree/vector conversions. -/
def createSphericalRotation (p q : LonLat) : LonLat → LonLat :=
  let angle := rotationAngle p q
  if angle < ROTATION_EPSILON then fun coordinate => coordinate
  else
    let axis := rotationAxis p q
    let sinAngle := Real.sin angle
    let cosAngle := Real.cos angle
    fun c => vectorToLonLat (applyRotation axis cosAngle sinAngle (lonLatToVector c))

/-- Source getMercatorScale from src/utils/formatters.ts. -/
def getMercatorScale (originalLat currentLat : ℝ) : ℝ :=
  Real.cos (originalLat * Real.pi / 180) / Real.cos (currentLat * Real.pi / 180)

/-- A geographically valid longitude/latitude pair: longitude in (-180, 180],
latitude strictly between the poles. -/
def validLonLat (p : LonLat) : Prop :=
  -180 < p.1 ∧ p.1 ≤ 180 ∧ -90 < p.2 ∧ p.2 < 90

end

theorem list_map_attach {β γ : Type} (l : List β) (f : β → γ) :
    (l.attach.map fun i => f i.1) = l.map f := by
  show l.attach.map (f ∘ Subtype.val) = l.map f
  rw [← List.map_map, List.attach_map_subtype_val]

theorem list_all_attach {β : Type} (l : List β) (p : β → Bool) :
    (l.attach.all fun i => p i.1) = l.all p := by
  rw [Bool.eq_iff_iff]
  simp only [List.all_eq_true, List.mem_attach, true_implies, Subtype.forall]

theorem rotateGeometry_point (r : α × α → α × α) (c : List α) :
    rotateGeometry (.point c) r = .point (rotatePosition r c) := by
  rw [rotateGeometry]

theorem rotateGeometry_multiPoint (r : α × α → α × α) (cs : List (List α)) :
    rotateGeometry (.multiPoint cs) r = .multiPoint (cs.map (rotatePosition r)) := by
  rw [rotateGeometry]

theorem rotateGeometry_lineString (r : α × α → α × α) (cs : List (List α)) :
    rotateGeometry (.lineString cs) r = .lineString (cs.map (rotatePosition r)) := by
  rw [rotateGeometry]

theorem rotateGeometry_multiLineString (r : α × α → α × α)
    (cs : List (List (List α))) :
    rotateGeometry (.multiLineString cs) r =
      .multiLineString (cs.map (fun line => line.map (rotatePosition r))) := by
  rw [rotateGeometry]

theorem rotateGeometry_polygon (r : α × α → α × α) (cs : List (List (List α))) :
    rotateGeometry (.polygon cs) r =
      .polygon (cs.map (fun line => line.map (rotatePosition r))) := by
  rw [rotateGeometry]

theorem rotateGeometry_multiPolygon (r : α × α → α × α)
    (cs : List (List (List (List α)))) :
    rotateGeometry (.multiPolygon cs) r =
      .multiPolygon (cs.map (fun poly =>
        poly.map (fun ring => ring.map (rotatePosition r)))) := by
  rw [rotateGeometry]

theorem rotateGeometry_geometryCollection (r : α × α → α × α)
    (gs : List (Geometry α)) :
    rotateGeometry (.geometryCollection gs) r =
      .geometryCollection (gs.map (fun geom => rotateGeometry geom r)) := by
  rw [rotateGeometry, list_map_attach gs (fun geom => rotateGeometry geom r)]

theorem rotateGeometry_other (r : α × α → α × α) (tag : String) :
    rotateGeometry (.other tag) r = .other tag := by
  rw [rotateGeometry]

theorem scaleGeometry_point (center : α × α) (k : α) (c : List α) :
    scaleGeometry (.point c) center k = .point (scalePosition center k c) := by
  rw [scaleGeometry]

theorem scaleGeometry_multiPoint (center : α × α) (k : α) (cs : List (List α)) :
    scaleGeometry (.multiPoint cs) center k =
      .multiPoint (cs.map (scalePosition center k)) := by
  rw [scaleGeometry]

theorem scaleGeometry_lineString (center : α × α) (k : α) (cs : List (List α)) :
    scaleGeometry (.lineString cs) center k =
      .lineString (cs.map (scalePosition center k)) := by
  rw [scaleGeometry]

theorem scaleGeometry_multiLineString (center : α × α) (k : α)
    (cs : List (List (List α))) :
    scaleGeometry (.multiLineString cs) center k =
      .multiLineString (cs.map (fun line => line.map (scalePosition center k))) := by
  rw [scaleGeometry]

theorem scaleGeometry_polygon (center : α × α) (k : α)
    (cs : List (List (List α))) :
    scaleGeometry (.polygon cs) center k =
      .polygon (cs.map (fun line => line.map (scalePosition center k))) := by
  rw [scaleGeometry]

theorem scaleGeometry_multiPolygon (center : α × α) (k : α)
    (cs : List (List (List (List α)))) :
    scaleGeometry (.multiPolygon cs) center k =
      .multiPolygon (cs.map (fun poly =>
        poly.map (fun ring => ring.map (scalePosition center k)))) := by
  rw [scaleGeometry]

theorem scaleGeometry_geometryCollection (center : α × α) (k : α)
    (gs : List (Geometry α)) :
    scaleGeometry (.geometryCollection gs) center k =
      .geometryCollection (gs.map (fun geom => scaleGeometry geom center k)) := by
  rw [scaleGeometry, list_map_attach gs (fun geom => scaleGeometry geom center k)]

theorem scaleGeometry_other (center : α × α) (k : α) (tag : String) :
    scaleGeometry (.other tag) center k = .other tag := by
  rw [scaleGeometry]

omit [LinearOrderedField α] in
theorem shape_geometryCollection (gs : List (Geometry α)) :
    shape (.geometryCollection gs) = .geometryCollection (gs.map shape) := by
  rw [shape, list_map_attach gs shape]

omit [LinearOrderedField α] in
theorem posAll_geometryCollection (P : List α → Bool) (gs : List (Geometry α)) :
    posAll P (.geometryCollection gs) = gs.all (posAll P) := by
  rw [posAll, list_all_attach]


theorem clamp_eq_self {β : Type} [LinearOrder β] {x lo hi : β}
    (h1 : lo ≤ x) (h2 : x ≤ hi) : clamp x lo hi = x := by
  rw [clamp, max_eq_left h1, min_eq_left h2]

theorem clamp_mem {β : Type} [LinearOrder β] (x : β) {lo hi : β} (h : lo ≤ hi) :
    lo ≤ clamp x lo hi ∧ clamp x lo hi ≤ hi :=
  ⟨le_min (le_max_right x lo) h, min_le_right _ _⟩

theorem dot_self_eq (v : Vec3) : dot v v = v.1 ^ 2 + v.2.1 ^ 2 + v.2.2 ^ 2 := by
  simp only [dot]; ring

theorem dot_self_nonneg (v : Vec3) : 0 ≤ dot v v := by
  rw [dot_self_eq]; positivity

theorem hypot3_nonneg (v : Vec3) : 0 ≤ hypot3 v := Real.sqrt_nonneg _

theorem hypot3_sq (v : Vec3) : hypot3 v ^ 2 = dot v v := by
  rw [hypot3, Real.sq_sqrt (by positivity), dot_self_eq]

theorem hypot3_eq_sqrt_dot (v : Vec3) : hypot3 v = Real.sqrt (dot v v) := by
  rw [hypot3, dot_self_eq]

/-- Lagrange identity for the source's cross and dot products. -/
theorem sq_dot_add_dot_cross (a b : Vec3) :
    dot a b ^ 2 + dot (cross a b) (cross a b) = dot a a * dot b b := by
  simp only [dot, cross]; ring

theorem sq_dot_le_one {a b : Vec3} (ha : dot a a = 1) (hb : dot b b = 1) :
    dot a b ^ 2 ≤ 1 := by
  have h := sq_dot_add_dot_cross a b
  have h2 := dot_self_nonneg (cross a b)
  nlinarith

theorem clamp_dot_eq {a b : Vec3} (ha : dot a a = 1) (hb : dot b b = 1) :
    clamp (dot a b) (-1) 1 = dot a b := by
  have h := sq_dot_le_one ha hb
  have h1 : -1 ≤ dot a b := by nlinarith
  have h2 : dot a b ≤ 1 := by nlinarith
  exact clamp_eq_self h1 h2

theorem cross_length_sq {a b : Vec3} (ha : dot a a = 1) (hb : dot b b = 1) :
    hypot3 (cross a b) ^ 2 = 1 - dot a b ^ 2 := by
  have h := sq_dot_add_dot_cross a b
  rw [hypot3_sq]; rw [ha, hb] at h; linarith

theorem dot_cross_left (a b : Vec3) : dot (cross a b) a = 0 := by
  simp only [dot, cross]; ring

/-- The unit vector produced by lonLatToVector. -/
theorem dot_lonLatToVector_self (p : LonLat) :
    dot (lonLatToVector p) (lonLatToVector p) = 1 := by
  simp only [lonLatToVector, dot]
  linear_combination
    Real.cos (p.2 * DEG_TO_RAD) ^ 2 * Real.sin_sq_add_cos_sq (p.1 * DEG_TO_RAD) +
      Real.sin_sq_add_cos_sq (p.2 * DEG_TO_RAD)

theorem complex_mk_abs (x y : ℝ) :
    Complex.abs ⟨x, y⟩ = Real.sqrt (x ^ 2 + y ^ 2) := by
  rw [Complex.abs_apply, Complex.normSq_mk]
  congr 1; ring

theorem complex_mk_ne_zero {x y : ℝ} (h : ¬(x = 0 ∧ y = 0)) :
    (⟨x, y⟩ : ℂ) ≠ 0 := by
  intro hz
  exact h (by simpa [Complex.ext_iff] using hz)

theorem arctan2_cos {y x : ℝ} (h : ¬(x = 0 ∧ y = 0)) :
    Real.cos (arctan2 y x) = x / Real.sqrt (x ^ 2 + y ^ 2) := by
  rw [arctan2, Complex.cos_arg (complex_mk_ne_zero h), complex_mk_abs]

theorem arctan2_sin (y x : ℝ) :
    Real.sin (arctan2 y x) = y / Real.sqrt (x ^ 2 + y ^ 2) := by
  rw [arctan2, Complex.sin_arg, complex_mk_abs]

theorem neg_pi_lt_arctan2 (y x : ℝ) : -Real.pi < arctan2 y x :=
  Complex.neg_pi_lt_arg _

theorem arctan2_le_pi (y x : ℝ) : arctan2 y x ≤ Real.pi :=
  Complex.arg_le_pi _

theorem abs_arctan2_le_pi_div_two {y x : ℝ} (hx : 0 ≤ x) :
    |arctan2 y x| ≤ Real.pi / 2 :=
  Complex.abs_arg_le_pi_div_two_iff.mpr hx

theorem arctan2_sin_cos {θ : ℝ} (h1 : -Real.pi < θ) (h2 : θ ≤ Real.pi) :
    arctan2 (Real.sin θ) (Real.cos θ) = θ := by
  rw [arctan2]
  have hmk : (⟨Real.cos θ, Real.sin θ⟩ : ℂ) =
      Complex.cos θ + Complex.sin θ * Complex.I := by
    rw [Complex.mk_eq_add_mul_I, Complex.ofReal_cos, Complex.ofReal_sin]
  rw [hmk]
  exact Complex.arg_cos_add_sin_mul_I ⟨h1, h2⟩

theorem arctan2_scale {c : ℝ} (y x : ℝ) (hc : 0 < c) :
    arctan2 (c * y) (c * x) = arctan2 y x := by
  rw [arctan2, arctan2]
  have hmk : (⟨c * x, c * y⟩ : ℂ) = (c : ℂ) * ⟨x, y⟩ := by
    simp [Complex.ext_iff]
  rw [hmk]
  exact Complex.arg_real_mul _ hc

/-- Round trip on the unit sphere: vectorToLonLat inverts lonLatToVector on
every unit vector. -/
theorem lonLatToVector_vectorToLonLat {v : Vec3} (hv : dot v v = 1) :
    lonLatToVector (vectorToLonLat v) = v := by
  obtain ⟨x, y, z⟩ := v
  rw [dot_self_eq] at hv
  simp only at hv
  have hpi : Real.pi ≠ 0 := Real.pi_ne_zero
  have hhyp : Real.sqrt (x * x + y * y) = Real.sqrt (x ^ 2 + y ^ 2) := by
    congr 1; ring
  simp only [vectorToLonLat, lonLatToVector, RAD_TO_DEG, DEG_TO_RAD]
  have hcancel : ∀ t : ℝ, t * (180 / Real.pi) * (Real.pi / 180) = t := by
    intro t; field_simp
  rw [hhyp, hcancel, hcancel]
  have hsq : Real.sqrt (x ^ 2 + y ^ 2) ^ 2 = x ^ 2 + y ^ 2 :=
    Real.sq_sqrt (by positivity)
  have habs : Real.sqrt (Real.sqrt (x ^ 2 + y ^ 2) ^ 2 + z ^ 2) = 1 := by
    rw [hsq]
    rw [show x ^ 2 + y ^ 2 + z ^ 2 = 1 from hv]
    exact Real.sqrt_one
  have hz2 : ¬(Real.sqrt (x ^ 2 + y ^ 2) = 0 ∧ z = 0) := by
    rintro ⟨h1, h2⟩
    have : x ^ 2 + y ^ 2 = 0 := by
      have := Real.sqrt_eq_zero (by positivity) |>.mp h1
      exact this
    nlinarith
  have hcoslat : Real.cos (arctan2 z (Real.sqrt (x ^ 2 + y ^ 2))) =
      Real.sqrt (x ^ 2 + y ^ 2) := by
    rw [arctan2_cos hz2, habs, div_one]
  have hsinlat : Real.sin (arctan2 z (Real.sqrt (x ^ 2 + y ^ 2))) = z := by
    rw [arctan2_sin, habs, div_one]
  by_cases hxy : Real.sqrt (x ^ 2 + y ^ 2) = 0
  · have hxy0 : x ^ 2 + y ^ 2 = 0 := Real.sqrt_eq_zero (by positivity) |>.mp hxy
    have hx0 : x = 0 := by nlinarith
    have hy0 : y = 0 := by nlinarith
    subst hx0; subst hy0
    have harg0 : arctan2 0 0 = 0 := by
      rw [arctan2]
      have : (⟨(0 : ℝ), (0 : ℝ)⟩ : ℂ) = 0 := by simp [Complex.ext_iff]
      rw [this, Complex.arg_zero]
    simp only [harg0, Real.cos_zero, Real.sin_zero, hcoslat, hsinlat]
    rw [hxy]
    norm_num
  · have hcoslon : Real.cos (arctan2 y x) = x / Real.sqrt (x ^ 2 + y ^ 2) := by
      refine arctan2_cos ?_
      rintro ⟨h1, h2⟩
      subst h1; subst h2
      simp at hxy
    have hsinlon : Real.sin (arctan2 y x) = y / Real.sqrt (x ^ 2 + y ^ 2) :=
      arctan2_sin y x
    rw [hcoslat, hsinlat, hcoslon, hsinlon]
    field_simp

/-- Round trip on valid coordinates: lonLatToVector then vectorToLonLat is the
identity on geographically valid longitude/latitude pairs. -/
theorem vectorToLonLat_lonLatToVector {p : LonLat} (hp : validLonLat p) :
    vectorToLonLat (lonLatToVector p) = p := by
  obtain ⟨hlon1, hlon2, hlat1, hlat2⟩ := hp
  have hpi := Real.pi_pos
  have hd : (0 : ℝ) < Real.pi / 180 := by positivity
  set lam := p.1 * DEG_TO_RAD with hlam
  set phi := p.2 * DEG_TO_RAD with hphi
  have hlamIoc : -Real.pi < lam ∧ lam ≤ Real.pi := by
    rw [hlam, DEG_TO_RAD]
    constructor
    · have := mul_lt_mul_of_pos_right hlon1 hd
      calc -Real.pi = -180 * (Real.pi / 180) := by field_simp; ring
        _ < p.1 * (Real.pi / 180) := this
    · have := mul_le_mul_of_nonneg_right hlon2 hd.le
      calc p.1 * (Real.pi / 180) ≤ 180 * (Real.pi / 180) := this
        _ = Real.pi := by field_simp
  have hphiIoo : -(Real.pi / 2) < phi ∧ phi < Real.pi / 2 := by
    rw [hphi, DEG_TO_RAD]
    constructor
    · have := mul_lt_mul_of_pos_right hlat1 hd
      calc -(Real.pi / 2) = -90 * (Real.pi / 180) := by field_simp; ring
        _ < p.2 * (Real.pi / 180) := this
    · have := mul_lt_mul_of_pos_right hlat2 hd
      calc p.2 * (Real.pi / 180) < 90 * (Real.pi / 180) := this
        _ = Real.pi / 2 := by field_simp; ring
  have hcosphi : 0 < Real.cos phi :=
    Real.cos_pos_of_mem_Ioo ⟨hphiIoo.1, hphiIoo.2⟩
  simp only [vectorToLonLat, lonLatToVector]
  rw [← hlam, ← hphi]
  have hhyp : Real.sqrt (Real.cos phi * Real.cos lam * (Real.cos phi * Real.cos lam) +
      Real.cos phi * Real.sin lam * (Real.cos phi * Real.sin lam)) = Real.cos phi := by
    have : Real.cos phi * Real.cos lam * (Real.cos phi * Real.cos lam) +
        Real.cos phi * Real.sin lam * (Real.cos phi * Real.sin lam) =
        Real.cos phi ^ 2 := by
      linear_combination Real.cos phi ^ 2 * Real.sin_sq_add_cos_sq lam
    rw [this, Real.sqrt_sq hcosphi.le]
  rw [hhyp]
  have hlonarg : arctan2 (Real.cos phi * Real.sin lam) (Real.cos phi * Real.cos lam)
      = lam := by
    rw [arctan2_scale _ _ hcosphi, arctan2_sin_cos hlamIoc.1 hlamIoc.2]
  have hlatarg : arctan2 (Real.sin phi) (Real.cos phi) = phi := by
    rw [arctan2_sin_cos (by linarith [hphiIoo.1]) (by linarith [hphiIoo.2])]
  rw [hlonarg, hlatarg, hlam, hphi]
  have hcancel : ∀ t : ℝ, t * DEG_TO_RAD * RAD_TO_DEG = t := by
    intro t
    rw [DEG_TO_RAD, RAD_TO_DEG]
    field_simp
  rw [hcancel, hcancel]

/-- The Rodrigues formula about a unit axis preserves dot products. -/
theorem rodrigues_dot (a1 a2 a3 c s v1 v2 v3 w1 w2 w3 : ℝ)
    (hA : a1 ^ 2 + a2 ^ 2 + a3 ^ 2 = 1) (hS : s ^ 2 + c ^ 2 = 1) :
    dot (applyRotation (a1, a2, a3) c s (v1, v2, v3))
        (applyRotation (a1, a2, a3) c s (w1, w2, w3)) =
      dot (v1, v2, v3) (w1, w2, w3) := by
  simp only [applyRotation, dot, cross]
  linear_combination
    ((v1 * w1 + v2 * w2 + v3 * w3) -
        (a1 * v1 + a2 * v2 + a3 * v3) * (a1 * w1 + a2 * w2 + a3 * w3)) * hS +
      (s ^ 2 * (v1 * w1 + v2 * w2 + v3 * w3) +
        (1 - c) ^ 2 *
          ((a1 * v1 + a2 * v2 + a3 * v3) * (a1 * w1 + a2 * w2 + a3 * w3))) * hA

/-- The Rodrigues formula with axis cross(u,w)/L, cosine dot(u,w) and sine L
maps the unit vector u exactly to w, for any nonzero L. -/
theorem rodrigues_anchor_raw (u1 u2 u3 w1 w2 w3 L : ℝ)
    (hu : u1 ^ 2 + u2 ^ 2 + u3 ^ 2 = 1) (hL : L ≠ 0) :
    applyRotation
      ((u2 * w3 - u3 * w2) / L, (u3 * w1 - u1 * w3) / L, (u1 * w2 - u2 * w1) / L)
      (u1 * w1 + u2 * w2 + u3 * w3) L (u1, u2, u3) = (w1, w2, w3) := by
  simp only [applyRotation, dot, cross, Prod.mk.injEq]
  refine ⟨?_, ?_, ?_⟩ <;> field_simp
  · linear_combination L ^ 2 * w1 * hu
  · linear_combination L ^ 2 * w2 * hu
  · linear_combination L ^ 2 * w3 * hu

/-- The Rodrigues formula with cosine -1 and sine 0 about any axis
perpendicular to u negates u. -/
theorem applyRotation_antipodal {a u : Vec3} (h : dot a u = 0) :
    applyRotation a (-1) 0 u = (-u.1, -u.2.1, -u.2.2) := by
  obtain ⟨a1, a2, a3⟩ := a
  obtain ⟨u1, u2, u3⟩ := u
  simp only [dot] at h
  simp only [applyRotation, dot, cross, Prod.mk.injEq]
  refine ⟨?_, ?_, ?_⟩
  · linear_combination 2 * a1 * h
  · linear_combination 2 * a2 * h
  · linear_combination 2 * a3 * h

theorem eps_pos : (0 : ℝ) < ROTATION_EPSILON := by norm_num [ROTATION_EPSILON]

theorem hypot3_pos_of_eps_le {v : Vec3} (h : ROTATION_EPSILON ≤ hypot3 v) :
    0 < hypot3 v := lt_of_lt_of_le eps_pos h

theorem normalize_of_eps_le {v : Vec3} (h : ROTATION_EPSILON ≤ hypot3 v) :
    normalize v = (v.1 / hypot3 v, v.2.1 / hypot3 v, v.2.2 / hypot3 v) := by
  simp only [normalize]
  rw [if_neg (not_lt.mpr h)]

theorem dot_normalize_self {v : Vec3} (h : ROTATION_EPSILON ≤ hypot3 v) :
    dot (normalize v) (normalize v) = 1 := by
  have hL := hypot3_pos_of_eps_le h
  rw [normalize_of_eps_le h]
  have h2 : dot (v.1 / hypot3 v, v.2.1 / hypot3 v, v.2.2 / hypot3 v)
      (v.1 / hypot3 v, v.2.1 / hypot3 v, v.2.2 / hypot3 v) =
      dot v v / hypot3 v ^ 2 := by
    simp only [dot]; ring
  rw [h2, ← hypot3_sq, div_self (pow_ne_zero 2 hL.ne')]

theorem dot_normalize_left {v u : Vec3} (h : dot v u = 0) :
    dot (normalize v) u = 0 := by
  simp only [normalize]
  by_cases hc : hypot3 v < ROTATION_EPSILON
  · rw [if_pos hc]; simp [dot]
  · rw [if_neg hc]
    have h2 : dot (v.1 / hypot3 v, v.2.1 / hypot3 v, v.2.2 / hypot3 v) u =
        dot v u / hypot3 v := by
      simp only [dot]; ring
    rw [h2, h, zero_div]

/-- The fallback reference axis always has magnitude far above the epsilon
guard when crossed with a unit vector. -/
theorem eps_le_hypot3_fallback {u : Vec3} (hu : dot u u = 1) :
    ROTATION_EPSILON ≤ hypot3 (cross u
      (if |u.1| < 0.9 then ((1 : ℝ), (0 : ℝ), (0 : ℝ))
        else ((0 : ℝ), (1 : ℝ), (0 : ℝ)))) := by
  rw [dot_self_eq] at hu
  rw [hypot3, ROTATION_EPSILON]
  by_cases h : |u.1| < 0.9
  · rw [if_pos h]
    have hx : u.1 ^ 2 < 81 / 100 := by
      nlinarith [sq_abs u.1, abs_nonneg u.1]
    refine (Real.le_sqrt (by norm_num) (by positivity)).mpr ?_
    simp only [cross]
    nlinarith
  · rw [if_neg h]
    have hx : (81 : ℝ) / 100 ≤ u.1 ^ 2 := by
      nlinarith [sq_abs u.1, abs_nonneg u.1, not_lt.mp h]
    refine (Real.le_sqrt (by norm_num) (by positivity)).mpr ?_
    simp only [cross]
    nlinarith

/-- rotationAxis is always a unit vector (the code's normalize guard never
fires: in the main branch the raw cross product passed the epsilon test, in
the fallback branch the fallback cross product is bounded away from zero). -/
theorem rotationAxis_unit (p q : LonLat) :
    dot (rotationAxis p q) (rotationAxis p q) = 1 := by
  simp only [rotationAxis]
  by_cases h : hypot3 (cross (lonLatToVector p) (lonLatToVector q)) <
      ROTATION_EPSILON
  · rw [if_pos h]
    exact dot_normalize_self (eps_le_hypot3_fallback (dot_lonLatToVector_self p))
  · rw [if_neg h]
    exact dot_normalize_self (not_lt.mp h)

/-- rotationAxis is always perpendicular to the source endpoint vector. -/
theorem dot_rotationAxis_from (p q : LonLat) :
    dot (rotationAxis p q) (lonLatToVector p) = 0 := by
  simp only [rotationAxis]
  by_cases h : hypot3 (cross (lonLatToVector p) (lonLatToVector q)) <
      ROTATION_EPSILON
  · rw [if_pos h]
    exact dot_normalize_left (dot_cross_left _ _)
  · rw [if_neg h]
    exact dot_normalize_left (dot_cross_left _ _)

theorem createSphericalRotation_of_lt {p q : LonLat}
    (h : rotationAngle p q < ROTATION_EPSILON) :
    createSphericalRotation p q = fun coordinate => coordinate := by
  simp only [createSphericalRotation]
  rw [if_pos h]

theorem createSphericalRotation_of_not_lt {p q : LonLat}
    (h : ¬rotationAngle p q < ROTATION_EPSILON) (c : LonLat) :
    createSphericalRotation p q c =
      vectorToLonLat (applyRotation (rotationAxis p q)
        (Real.cos (rotationAngle p q)) (Real.sin (rotationAngle p q))
        (lonLatToVector c)) := by
  simp only [createSphericalRotation]
  rw [if_neg h]

theorem rotationAngle_eq_arccos (p q : LonLat) :
    rotationAngle p q =
      Real.arccos (dot (lonLatToVector p) (lonLatToVector q)) := by
  rw [rotationAngle,
    clamp_dot_eq (dot_lonLatToVector_self p) (dot_lonLatToVector_self q)]

theorem cos_rotationAngle (p q : LonLat) :
    Real.cos (rotationAngle p q) = dot (lonLatToVector p) (lonLatToVector q) := by
  have h := sq_dot_le_one (dot_lonLatToVector_self p) (dot_lonLatToVector_self q)
  rw [rotationAngle_eq_arccos]
  exact Real.cos_arccos (by nlinarith) (by nlinarith)

theorem sin_rotationAngle (p q : LonLat) :
    Real.sin (rotationAngle p q) =
      hypot3 (cross (lonLatToVector p) (lonLatToVector q)) := by
  rw [rotationAngle_eq_arccos, Real.sin_arccos,
    ← cross_length_sq (dot_lonLatToVector_self p) (dot_lonLatToVector_self q),
    Real.sqrt_sq (hypot3_nonneg _)]

theorem dot_applyRotation_applyRotation (a : Vec3) (c s : ℝ) (v w : Vec3)
    (hA : dot a a = 1) (hS : s ^ 2 + c ^ 2 = 1) :
    dot (applyRotation a c s v) (applyRotation a c s w) = dot v w := by
  obtain ⟨a1, a2, a3⟩ := a
  obtain ⟨v1, v2, v3⟩ := v
  obtain ⟨w1, w2, w3⟩ := w
  rw [dot_self_eq] at hA
  simp only at hA
  exact rodrigues_dot a1 a2 a3 c s v1 v2 v3 w1 w2 w3 hA hS

theorem applyRotation_cross_anchor {u w : Vec3} (hu : dot u u = 1)
    (hL : hypot3 (cross u w) ≠ 0) :
    applyRotation
      ((cross u w).1 / hypot3 (cross u w), (cross u w).2.1 / hypot3 (cross u w),
        (cross u w).2.2 / hypot3 (cross u w))
      (dot u w) (hypot3 (cross u w)) u = w := by
  obtain ⟨u1, u2, u3⟩ := u
  obtain ⟨w1, w2, w3⟩ := w
  rw [dot_self_eq] at hu
  simp only at hu
  have h := rodrigues_anchor_raw u1 u2 u3 w1 w2 w3
    (hypot3 (cross (u1, u2, u3) (w1, w2, w3))) hu hL
  simpa [cross, dot] using h

/-- In the rotation branch the Rodrigues step maps the source endpoint vector
exactly onto the destination endpoint vector whenever the raw cross product
passes the epsilon guard. -/
theorem rotation_branch_anchor (p q : LonLat)
    (hL : ROTATION_EPSILON ≤
      hypot3 (cross (lonLatToVector p) (lonLatToVector q))) :
    applyRotation (rotationAxis p q) (Real.cos (rotationAngle p q))
      (Real.sin (rotationAngle p q)) (lonLatToVector p) = lonLatToVector q := by
  have hax : rotationAxis p q =
      ((cross (lonLatToVector p) (lonLatToVector q)).1 /
          hypot3 (cross (lonLatToVector p) (lonLatToVector q)),
        (cross (lonLatToVector p) (lonLatToVector q)).2.1 /
          hypot3 (cross (lonLatToVector p) (lonLatToVector q)),
        (cross (lonLatToVector p) (lonLatToVector q)).2.2 /
          hypot3 (cross (lonLatToVector p) (lonLatToVector q))) := by
    simp only [rotationAxis]
    rw [if_neg (not_lt.mpr hL)]
    exact normalize_of_eps_le hL
  rw [cos_rotationAngle, sin_rotationAngle, hax]
  exact applyRotation_cross_anchor (dot_lonLatToVector_self p)
    (hypot3_pos_of_eps_le hL).ne'

theorem dot_applyRotation_expand (a : Vec3) (c s : ℝ) (v w : Vec3) :
    dot (applyRotation a c s v) w =
      c * dot v w + s * dot (cross a v) w + dot a v * (1 - c) * dot a w := by
  simp only [applyRotation, dot, cross]
  ring

theorem dot_cross_comm (a u w : Vec3) :
    dot (cross a u) w = dot a (cross u w) := by
  simp only [dot, cross]
  ring

theorem sq_dot_le (a b : Vec3) : dot a b ^ 2 ≤ dot a a * dot b b := by
  have h := sq_dot_add_dot_cross a b
  have h2 := dot_self_nonneg (cross a b)
  linarith

theorem RAD_TO_DEG_pos : 0 < RAD_TO_DEG := by
  rw [RAD_TO_DEG]
  have := Real.pi_pos
  positivity

theorem pi_mul_RAD_TO_DEG : Real.pi * RAD_TO_DEG = 180 := by
  rw [RAD_TO_DEG]
  field_simp

theorem half_pi_mul_RAD_TO_DEG : Real.pi / 2 * RAD_TO_DEG = 90 := by
  rw [RAD_TO_DEG]
  field_simp
  ring

/-- Every output of vectorToLonLat lies in the valid geographic ranges,
because atan2 has range (-pi, pi] and its latitude call gets a non-negative
second argument. -/
theorem vectorToLonLat_range (v : Vec3) :
    -180 ≤ (vectorToLonLat v).1 ∧ (vectorToLonLat v).1 ≤ 180 ∧
      -90 ≤ (vectorToLonLat v).2 ∧ (vectorToLonLat v).2 ≤ 90 := by
  simp only [vectorToLonLat]
  have h1 := (neg_pi_lt_arctan2 v.2.1 v.1).le
  have h2 := arctan2_le_pi v.2.1 v.1
  have h3 := abs_arctan2_le_pi_div_two (y := v.2.2)
    (Real.sqrt_nonneg (v.1 * v.1 + v.2.1 * v.2.1))
  rw [abs_le] at h3
  have hR := RAD_TO_DEG_pos.le
  refine ⟨?_, ?_, ?_, ?_⟩
  · calc (-180 : ℝ) = -Real.pi * RAD_TO_DEG := by
          rw [neg_mul, pi_mul_RAD_TO_DEG]
      _ ≤ arctan2 v.2.1 v.1 * RAD_TO_DEG := mul_le_mul_of_nonneg_right h1 hR
  · calc arctan2 v.2.1 v.1 * RAD_TO_DEG ≤ Real.pi * RAD_TO_DEG :=
          mul_le_mul_of_nonneg_right h2 hR
      _ = 180 := pi_mul_RAD_TO_DEG
  · calc (-90 : ℝ) = -(Real.pi / 2) * RAD_TO_DEG := by
          rw [neg_mul, half_pi_mul_RAD_TO_DEG]
      _ ≤ arctan2 v.2.2 (Real.sqrt (v.1 * v.1 + v.2.1 * v.2.1)) * RAD_TO_DEG :=
          mul_le_mul_of_nonneg_right h3.1 hR
  · calc arctan2 v.2.2 (Real.sqrt (v.1 * v.1 + v.2.1 * v.2.1)) * RAD_TO_DEG ≤
          Real.pi / 2 * RAD_TO_DEG := mul_le_mul_of_nonneg_right h3.2 hR
      _ = 90 := half_pi_mul_RAD_TO_DEG

/-- C4: whenever the two endpoints coincide (or more generally the angular
distance between them is below ROTATION_EPSILON), createSphericalRotation
returns the identity function, so every coordinate comes back unchanged with
exact equality. -/
theorem createSphericalRotation_identity_case (p q : LonLat)
    (h : p = q ∨ rotationAngle p q < ROTATION_EPSILON) :
    ∀ c : LonLat, createSphericalRotation p q c = c := by
  have hlt : rotationAngle p q < ROTATION_EPSILON := by
    rcases h with rfl | h
    · rw [rotationAngle_eq_arccos, dot_lonLatToVector_self, Real.arccos_one]
      exact eps_pos
    · exact h
  intro c
  rw [createSphericalRotation_of_lt hlt]

/-- Witness for C4 at the concrete pair (12, 34) and probe point (56, 7). -/
theorem createSphericalRotation_identity_case_witness :
    createSphericalRotation (12, 34) (12, 34) (56, 7) = (56, 7) :=
  createSphericalRotation_identity_case (12, 34) (12, 34) (Or.inl rfl) (56, 7)

/-- C10: in the non-identity branch the returned rotation function always
produces a longitude in [-180, 180] and a latitude in [-90, 90], for every
finite input coordinate, because it ends in vectorToLonLat. -/
theorem createSphericalRotation_output_range (p q c : LonLat)
    (h : ¬rotationAngle p q < ROTATION_EPSILON) :
    -180 ≤ (createSphericalRotation p q c).1 ∧
      (createSphericalRotation p q c).1 ≤ 180 ∧
      -90 ≤ (createSphericalRotation p q c).2 ∧
      (createSphericalRotation p q c).2 ≤ 90 := by
  rw [createSphericalRotation_of_not_lt h]
  exact vectorToLonLat_range _

/-- C6: concrete values of the Mercator scale formula, including the exact
value 1 at equal latitudes, and its defining cosine-ratio form. -/
theorem getMercatorScale_values :
    (∀ originalLat currentLat : ℝ,
      getMercatorScale originalLat currentLat =
        Real.cos (originalLat * Real.pi / 180) /
          Real.cos (currentLat * Real.pi / 180)) ∧
    getMercatorScale 0 60 = 2 ∧ getMercatorScale 60 0 = 1 / 2 ∧
      getMercatorScale 45 45 = 1 := by
  have h60 : (60 : ℝ) * Real.pi / 180 = Real.pi / 3 := by ring
  have h0 : (0 : ℝ) * Real.pi / 180 = 0 := by ring
  have h45 : (45 : ℝ) * Real.pi / 180 = Real.pi / 4 := by ring
  refine ⟨fun o c => rfl, ?_, ?_, ?_⟩
  · rw [getMercatorScale, h60, h0, Real.cos_zero, Real.cos_pi_div_three]
    norm_num
  · rw [getMercatorScale, h60, h0, Real.cos_zero, Real.cos_pi_div_three]
    norm_num
  · rw [getMercatorScale, h45, div_self]
    rw [Real.cos_pi_div_four]
    have h2 : (0 : ℝ) < Real.sqrt 2 / 2 := by positivity
    exact h2.ne'

theorem lonLatToVector_zero :
    lonLatToVector (0, 0) = ((1 : ℝ), (0 : ℝ), (0 : ℝ)) := by
  simp [lonLatToVector, DEG_TO_RAD]

theorem lonLatToVector_ninety :
    lonLatToVector (90, 0) = ((0 : ℝ), (1 : ℝ), (0 : ℝ)) := by
  have h90 : (90 : ℝ) * (Real.pi / 180) = Real.pi / 2 := by ring
  simp [lonLatToVector, DEG_TO_RAD, h90]

theorem lonLatToVector_oneEighty :
    lonLatToVector (180, 0) = ((-1 : ℝ), (0 : ℝ), (0 : ℝ)) := by
  have h180 : (180 : ℝ) * (Real.pi / 180) = Real.pi := by ring
  simp [lonLatToVector, DEG_TO_RAD, h180]

theorem rotationAngle_zero_ninety :
    rotationAngle (0, 0) (90, 0) = Real.pi / 2 := by
  rw [rotationAngle_eq_arccos, lonLatToVector_zero, lonLatToVector_ninety]
  have h : dot ((1 : ℝ), (0 : ℝ), (0 : ℝ)) ((0 : ℝ), (1 : ℝ), (0 : ℝ)) = 0 := by
    simp [dot]
  rw [h, Real.arccos_zero]

/-- Witness for C10 at the quarter-turn rotation from (0,0) to (90,0). -/
theorem createSphericalRotation_output_range_witness :
    -180 ≤ (createSphericalRotation (0, 0) (90, 0) (10, 20)).1 ∧
      (createSphericalRotation (0, 0) (90, 0) (10, 20)).1 ≤ 180 ∧
      -90 ≤ (createSphericalRotation (0, 0) (90, 0) (10, 20)).2 ∧
      (createSphericalRotation (0, 0) (90, 0) (10, 20)).2 ≤ 90 :=
  createSphericalRotation_output_range (0, 0) (90, 0) (10, 20) (by
    rw [rotationAngle_zero_ninety, not_lt]
    have h := Real.pi_gt_three
    rw [ROTATION_EPSILON]
    norm_num
    linarith)

/-- C1: the rotation built for a pair of valid points moves the source onto
the destination: exactly when the endpoints coincide (identity fast path),
exactly in the generic branch, exactly in the true antipodal case through the
fallback axis, and in every case (including the near-degenerate sliver) the
result is within the epsilon tolerance of the destination, stated as a lower
bound on the cosine of the angular error. -/
theorem createSphericalRotation_moves_anchor (p q : LonLat)
    (hq : validLonLat q) :
    (p = q → createSphericalRotation p q p = p) ∧
    (¬rotationAngle p q < ROTATION_EPSILON →
      ROTATION_EPSILON ≤ hypot3 (cross (lonLatToVector p) (lonLatToVector q)) →
      createSphericalRotation p q p = q) ∧
    (lonLatToVector q =
        (-(lonLatToVector p).1, -(lonLatToVector p).2.1, -(lonLatToVector p).2.2) →
      createSphericalRotation p q p = q) ∧
    1 - 2 * ROTATION_EPSILON ^ 2 ≤
      dot (lonLatToVector (createSphericalRotation p q p)) (lonLatToVector q) := by
  have hu := dot_lonLatToVector_self p
  have hw := dot_lonLatToVector_self q
  refine ⟨?_, ?_, ?_, ?_⟩
  · rintro rfl
    have hlt : rotationAngle p p < ROTATION_EPSILON := by
      rw [rotationAngle_eq_arccos, dot_lonLatToVector_self, Real.arccos_one]
      exact eps_pos
    rw [createSphericalRotation_of_lt hlt]
  · intro hna hL
    rw [createSphericalRotation_of_not_lt hna p, rotation_branch_anchor p q hL]
    exact vectorToLonLat_lonLatToVector hq
  · intro hanti
    have hd : dot (lonLatToVector p) (lonLatToVector q) = -1 := by
      have hstep : dot (lonLatToVector p)
          (-(lonLatToVector p).1, -(lonLatToVector p).2.1, -(lonLatToVector p).2.2) =
          -dot (lonLatToVector p) (lonLatToVector p) := by
        simp only [dot]
        ring
      rw [hanti, hstep, hu]
    have hangle : rotationAngle p q = Real.pi := by
      rw [rotationAngle_eq_arccos, hd, Real.arccos_neg_one]
    have hna : ¬rotationAngle p q < ROTATION_EPSILON := by
      rw [hangle, not_lt, ROTATION_EPSILON]
      have h := Real.pi_gt_three
      norm_num
      linarith
    rw [createSphericalRotation_of_not_lt hna p, hangle, Real.cos_pi, Real.sin_pi,
      applyRotation_antipodal (dot_rotationAxis_from p q), ← hanti]
    exact vectorToLonLat_lonLatToVector hq
  · by_cases hid : rotationAngle p q < ROTATION_EPSILON
    · rw [createSphericalRotation_of_lt hid]
      have hcos := cos_rotationAngle p q
      have h0 := Real.arccos_nonneg
        (clamp (dot (lonLatToVector p) (lonLatToVector q)) (-1) 1)
      have hepi : ROTATION_EPSILON ≤ Real.pi := by
        rw [ROTATION_EPSILON]
        have h := Real.pi_gt_three
        norm_num
        linarith
      have hmono : Real.cos ROTATION_EPSILON ≤ Real.cos (rotationAngle p q) :=
        Real.cos_le_cos_of_nonneg_of_le_pi h0 hepi hid.le
      have hq1 : 1 - ROTATION_EPSILON ^ 2 / 2 ≤ Real.cos ROTATION_EPSILON :=
        Real.one_sub_sq_div_two_le_cos
      have heps2 : (0 : ℝ) ≤ ROTATION_EPSILON ^ 2 := sq_nonneg _
      rw [hcos] at hmono
      linarith
    · by_cases hcr : hypot3 (cross (lonLatToVector p) (lonLatToVector q)) <
          ROTATION_EPSILON
      · rw [createSphericalRotation_of_not_lt hid p]
        have hRunit : dot
            (applyRotation (rotationAxis p q) (Real.cos (rotationAngle p q))
              (Real.sin (rotationAngle p q)) (lonLatToVector p))
            (applyRotation (rotationAxis p q) (Real.cos (rotationAngle p q))
              (Real.sin (rotationAngle p q)) (lonLatToVector p)) = 1 := by
          rw [dot_applyRotation_applyRotation _ _ _ _ _ (rotationAxis_unit p q)
            (Real.sin_sq_add_cos_sq _)]
          exact hu
        rw [lonLatToVector_vectorToLonLat hRunit, dot_applyRotation_expand,
          dot_rotationAxis_from, cos_rotationAngle, sin_rotationAngle,
          dot_cross_comm]
        have hk2 := sq_dot_le (rotationAxis p q)
          (cross (lonLatToVector p) (lonLatToVector q))
        rw [rotationAxis_unit p q, one_mul, ← hypot3_sq] at hk2
        have hL2 := cross_length_sq hu hw
        have hLnn := hypot3_nonneg (cross (lonLatToVector p) (lonLatToVector q))
        have heps := eps_pos
        nlinarith [sq_nonneg (hypot3 (cross (lonLatToVector p) (lonLatToVector q)) +
          dot (rotationAxis p q) (cross (lonLatToVector p) (lonLatToVector q)))]
      · rw [createSphericalRotation_of_not_lt hid p,
          rotation_branch_anchor p q (not_lt.mp hcr),
          lonLatToVector_vectorToLonLat hw, hw]
        nlinarith [sq_nonneg ROTATION_EPSILON]

/-- Witness for C1 at the concrete valid pair (0,0), (90,0). -/
theorem createSphericalRotation_moves_anchor_witness :
    validLonLat (90, 0) ∧
      1 - 2 * ROTATION_EPSILON ^ 2 ≤
        dot (lonLatToVector (createSphericalRotation (0, 0) (90, 0) (0, 0)))
          (lonLatToVector (90, 0)) :=
  ⟨by norm_num [validLonLat],
    (createSphericalRotation_moves_anchor (0, 0) (90, 0)
      (by norm_num [validLonLat])).2.2.2⟩

/-- C7: the returned rotation function preserves great-circle angular
distance: the distance between any probe point and the source endpoint equals
the distance between their images (the image of the source endpoint being the
point the destination stands for), exactly, in both branches. -/
theorem createSphericalRotation_preserves_distance (p q x : LonLat) :
    rotationAngle (createSphericalRotation p q x) (createSphericalRotation p q p) =
      rotationAngle x p := by
  by_cases h : rotationAngle p q < ROTATION_EPSILON
  · rw [createSphericalRotation_of_lt h]
  · have hvec : ∀ y : LonLat,
        lonLatToVector (createSphericalRotation p q y) =
          applyRotation (rotationAxis p q) (Real.cos (rotationAngle p q))
            (Real.sin (rotationAngle p q)) (lonLatToVector y) := by
      intro y
      rw [createSphericalRotation_of_not_lt h y]
      refine lonLatToVector_vectorToLonLat ?_
      rw [dot_applyRotation_applyRotation _ _ _ _ _ (rotationAxis_unit p q)
        (Real.sin_sq_add_cos_sq _)]
      exact dot_lonLatToVector_self y
    rw [rotationAngle, rotationAngle, hvec, hvec,
      dot_applyRotation_applyRotation _ _ _ _ _ (rotationAxis_unit p q)
        (Real.sin_sq_add_cos_sq _)]

/-- C9: in the near-antipodal case (raw cross product magnitude below the
epsilon), the axis is the normalized cross product of the source vector with
the deterministic fallback reference vector, [1,0,0] unless the source
vector's x component has absolute value at least 0.9, in which case [0,1,0];
the result is a unit vector perpendicular to the source vector. -/
theorem rotationAxis_fallback (p q : LonLat)
    (h : hypot3 (cross (lonLatToVector p) (lonLatToVector q)) <
      ROTATION_EPSILON) :
    rotationAxis p q =
      normalize (cross (lonLatToVector p)
        (if |(lonLatToVector p).1| < 0.9 then ((1 : ℝ), (0 : ℝ), (0 : ℝ))
          else ((0 : ℝ), (1 : ℝ), (0 : ℝ)))) ∧
      dot (rotationAxis p q) (lonLatToVector p) = 0 ∧
      hypot3 (rotationAxis p q) = 1 := by
  refine ⟨?_, dot_rotationAxis_from p q, ?_⟩
  · simp only [rotationAxis]
    rw [if_pos h]
  · rw [hypot3_eq_sqrt_dot, rotationAxis_unit p q, Real.sqrt_one]

/-- Witness for C9 at the antipodal pair (0,0), (180,0). -/
theorem rotationAxis_fallback_witness :
    hypot3 (cross (lonLatToVector (0, 0)) (lonLatToVector (180, 0))) <
        ROTATION_EPSILON ∧
      hypot3 (rotationAxis (0, 0) (180, 0)) = 1 := by
  have hcr : hypot3 (cross (lonLatToVector (0, 0)) (lonLatToVector (180, 0))) <
      ROTATION_EPSILON := by
    rw [lonLatToVector_zero, lonLatToVector_oneEighty]
    have hc : cross ((1 : ℝ), (0 : ℝ), (0 : ℝ)) ((-1 : ℝ), (0 : ℝ), (0 : ℝ)) =
        ((0 : ℝ), (0 : ℝ), (0 : ℝ)) := by
      simp [cross]
    rw [hc, hypot3]
    norm_num [ROTATION_EPSILON]
  exact ⟨hcr, (rotationAxis_fallback (0, 0) (180, 0) hcr).2.2⟩

theorem rotatePosition_cons (r : α × α → α × α) (lon lat : α) (rest : List α) :
    rotatePosition r (lon :: lat :: rest) =
      (r (lon, lat)).1 :: (r (lon, lat)).2 :: rest := rfl

theorem scalePosition_cons (center : α × α) (k lon lat : α) (rest : List α) :
    scalePosition center k (lon :: lat :: rest) =
      clamp (center.1 + (lon - center.1) * k) (-180) 180 ::
        clamp (center.2 + (lat - center.2) * k) (-MAX_LATITUDE) MAX_LATITUDE ::
        rest := rfl

theorem length_rotatePosition (r : α × α → α × α) (coord : List α)
    (h : 2 ≤ coord.length) :
    (rotatePosition r coord).length = coord.length := by
  simp only [rotatePosition, List.length_cons, List.length_drop]
  omega

theorem length_scalePosition (center : α × α) (k : α) (coord : List α)
    (h : 2 ≤ coord.length) :
    (scalePosition center k coord).length = coord.length := by
  simp only [scalePosition, List.length_cons, List.length_drop]
  omega

theorem shape_pos_rotate (r : α × α → α × α) {coord : List α}
    (h : 2 ≤ coord.length) :
    (rotatePosition r coord).map (fun _ => ()) = coord.map (fun _ => ()) := by
  rw [List.map_const', List.map_const', length_rotatePosition r coord h]

theorem shape_pos_scale (center : α × α) (k : α) {coord : List α}
    (h : 2 ≤ coord.length) :
    (scalePosition center k coord).map (fun _ => ()) =
      coord.map (fun _ => ()) := by
  rw [List.map_const', List.map_const', length_scalePosition center k coord h]

theorem map_comp_congr {β γ δ : Type} (l : List β) (F : β → γ) (G : γ → δ)
    (H : β → δ) (h : ∀ x ∈ l, G (F x) = H x) : (l.map F).map G = l.map H := by
  rw [List.map_map]
  exact List.map_congr_left h

omit [LinearOrderedField α] in
theorem shape_point (c : List α) :
    shape (.point c) = .point (c.map (fun _ => ())) := by rw [shape]

omit [LinearOrderedField α] in
theorem shape_multiPoint (cs : List (List α)) :
    shape (.multiPoint cs) = .multiPoint (cs.map (fun c => c.map (fun _ => ()))) := by
  rw [shape]

omit [LinearOrderedField α] in
theorem shape_lineString (cs : List (List α)) :
    shape (.lineString cs) = .lineString (cs.map (fun c => c.map (fun _ => ()))) := by
  rw [shape]

omit [LinearOrderedField α] in
theorem shape_multiLineString (cs : List (List (List α))) :
    shape (.multiLineString cs) =
      .multiLineString (cs.map (fun line => line.map (fun c => c.map (fun _ => ())))) := by
  rw [shape]

omit [LinearOrderedField α] in
theorem shape_polygon (cs : List (List (List α))) :
    shape (.polygon cs) =
      .polygon (cs.map (fun line => line.map (fun c => c.map (fun _ => ())))) := by
  rw [shape]

omit [LinearOrderedField α] in
theorem shape_multiPolygon (cs : List (List (List (List α)))) :
    shape (.multiPolygon cs) =
      .multiPolygon (cs.map (fun poly =>
        poly.map (fun ring => ring.map (fun c => c.map (fun _ => ()))))) := by
  rw [shape]

omit [LinearOrderedField α] in
theorem shape_other (tag : String) :
    shape (.other tag : Geometry α) = .other tag := by rw [shape]

omit [LinearOrderedField α] in
theorem posAll_point (P : List α → Bool) (c : List α) :
    posAll P (.point c) = P c := by rw [posAll]

omit [LinearOrderedField α] in
theorem posAll_multiPoint (P : List α → Bool) (cs : List (List α)) :
    posAll P (.multiPoint cs) = cs.all P := by rw [posAll]

omit [LinearOrderedField α] in
theorem posAll_lineString (P : List α → Bool) (cs : List (List α)) :
    posAll P (.lineString cs) = cs.all P := by rw [posAll]

omit [LinearOrderedField α] in
theorem posAll_multiLineString (P : List α → Bool) (cs : List (List (List α))) :
    posAll P (.multiLineString cs) = cs.all (fun line => line.all P) := by
  rw [posAll]

omit [LinearOrderedField α] in
theorem posAll_polygon (P : List α → Bool) (cs : List (List (List α))) :
    posAll P (.polygon cs) = cs.all (fun line => line.all P) := by rw [posAll]

omit [LinearOrderedField α] in
theorem posAll_multiPolygon (P : List α → Bool) (cs : List (List (List (List α)))) :
    posAll P (.multiPolygon cs) =
      cs.all (fun poly => poly.all (fun ring => ring.all P)) := by
  rw [posAll]

omit [LinearOrderedField α] in
theorem posAll_other (P : List α → Bool) (tag : String) :
    posAll P (.other tag) = true := by rw [posAll]

/-- rotateGeometry preserves the shape of every geometry whose positions all
have at least two entries. -/
theorem shape_rotateGeometry (r : α × α → α × α) :
    ∀ g : Geometry α, posAll (fun coord => decide (2 ≤ coord.length)) g = true →
      shape (rotateGeometry g r) = shape g
  | .point c, h => by
      rw [posAll_point, decide_eq_true_eq] at h
      rw [rotateGeometry_point, shape_point, shape_point]
      exact congrArg Geometry.point (shape_pos_rotate r h)
  | .multiPoint cs, h => by
      rw [posAll_multiPoint, List.all_eq_true] at h
      simp only [decide_eq_true_eq] at h
      rw [rotateGeometry_multiPoint, shape_multiPoint, shape_multiPoint]
      exact congrArg Geometry.multiPoint
        (map_comp_congr cs _ _ _ (fun c hc => shape_pos_rotate r (h c hc)))
  | .lineString cs, h => by
      rw [posAll_lineString, List.all_eq_true] at h
      simp only [decide_eq_true_eq] at h
      rw [rotateGeometry_lineString, shape_lineString, shape_lineString]
      exact congrArg Geometry.lineString
        (map_comp_congr cs _ _ _ (fun c hc => shape_pos_rotate r (h c hc)))
  | .multiLineString cs, h => by
      rw [posAll_multiLineString, List.all_eq_true] at h
      simp only [List.all_eq_true, decide_eq_true_eq] at h
      rw [rotateGeometry_multiLineString, shape_multiLineString,
        shape_multiLineString]
      refine congrArg Geometry.multiLineString
        (map_comp_congr cs _ _ _ (fun line hline => ?_))
      exact map_comp_congr line _ _ _
        (fun c hc => shape_pos_rotate r (h line hline c hc))
  | .polygon cs, h => by
      rw [posAll_polygon, List.all_eq_true] at h
      simp only [List.all_eq_true, decide_eq_true_eq] at h
      rw [rotateGeometry_polygon, shape_polygon, shape_polygon]
      refine congrArg Geometry.polygon
        (map_comp_congr cs _ _ _ (fun line hline => ?_))
      exact map_comp_congr line _ _ _
        (fun c hc => shape_pos_rotate r (h line hline c hc))
  | .multiPolygon cs, h => by
      rw [posAll_multiPolygon, List.all_eq_true] at h
      simp only [List.all_eq_true, decide_eq_true_eq] at h
      rw [rotateGeometry_multiPolygon, shape_multiPolygon, shape_multiPolygon]
      refine congrArg Geometry.multiPolygon
        (map_comp_congr cs _ _ _ (fun poly hpoly => ?_))
      refine map_comp_congr poly _ _ _ (fun ring hring => ?_)
      exact map_comp_congr ring _ _ _
        (fun c hc => shape_pos_rotate r (h poly hpoly ring hring c hc))
  | .geometryCollection gs, h => by
      rw [posAll_geometryCollection, List.all_eq_true] at h
      rw [rotateGeometry_geometryCollection, shape_geometryCollection,
        shape_geometryCollection]
      exact congrArg Geometry.geometryCollection
        (map_comp_congr gs _ _ _
          (fun geom hmem => shape_rotateGeometry r geom (h geom hmem)))
  | .other tag, h => by
      rw [rotateGeometry_other]
termination_by g => sizeOf g
decreasing_by
  have h2 := List.sizeOf_lt_of_mem hmem
  simp only [Geometry.geometryCollection.sizeOf_spec]
  omega

/-- scaleGeometry preserves the shape of every geometry whose positions all
have at least two entries. -/
theorem shape_scaleGeometry (center : α × α) (k : α) :
    ∀ g : Geometry α, posAll (fun coord => decide (2 ≤ coord.length)) g = true →
      shape (scaleGeometry g center k) = shape g
  | .point c, h => by
      rw [posAll_point, decide_eq_true_eq] at h
      rw [scaleGeometry_point, shape_point, shape_point]
      exact congrArg Geometry.point (shape_pos_scale center k h)
  | .multiPoint cs, h => by
      rw [posAll_multiPoint, List.all_eq_true] at h
      simp only [decide_eq_true_eq] at h
      rw [scaleGeometry_multiPoint, shape_multiPoint, shape_multiPoint]
      exact congrArg Geometry.multiPoint
        (map_comp_congr cs _ _ _ (fun c hc => shape_pos_scale center k (h c hc)))
  | .lineString cs, h => by
      rw [posAll_lineString, List.all_eq_true] at h
      simp only [decide_eq_true_eq] at h
      rw [scaleGeometry_lineString, shape_lineString, shape_lineString]
      exact congrArg Geometry.lineString
        (map_comp_congr cs _ _ _ (fun c hc => shape_pos_scale center k (h c hc)))
  | .multiLineString cs, h => by
      rw [posAll_multiLineString, List.all_eq_true] at h
      simp only [List.all_eq_true, decide_eq_true_eq] at h
      rw [scaleGeometry_multiLineString, shape_multiLineString,
        shape_multiLineString]
      refine congrArg Geometry.multiLineString
        (map_comp_congr cs _ _ _ (fun line hline => ?_))
      exact map_comp_congr line _ _ _
        (fun c hc => shape_pos_scale center k (h line hline c hc))
  | .polygon cs, h => by
      rw [posAll_polygon, List.all_eq_true] at h
      simp only [List.all_eq_true, decide_eq_true_eq] at h
      rw [scaleGeometry_polygon, shape_polygon, shape_polygon]
      refine congrArg Geometry.polygon
        (map_comp_congr cs _ _ _ (fun line hline => ?_))
      exact map_comp_congr line _ _ _
        (fun c hc => shape_pos_scale center k (h line hline c hc))
  | .multiPolygon cs, h => by
      rw [posAll_multiPolygon, List.all_eq_true] at h
      simp only [List.all_eq_true, decide_eq_true_eq] at h
      rw [scaleGeometry_multiPolygon, shape_multiPolygon, shape_multiPolygon]
      refine congrArg Geometry.multiPolygon
        (map_comp_congr cs _ _ _ (fun poly hpoly => ?_))
      refine map_comp_congr poly _ _ _ (fun ring hring => ?_)
      exact map_comp_congr ring _ _ _
        (fun c hc => shape_pos_scale center k (h poly hpoly ring hring c hc))
  | .geometryCollection gs, h => by
      rw [posAll_geometryCollection, List.all_eq_true] at h
      rw [scaleGeometry_geometryCollection, shape_geometryCollection,
        shape_geometryCollection]
      exact congrArg Geometry.geometryCollection
        (map_comp_congr gs _ _ _
          (fun geom hmem => shape_scaleGeometry center k geom (h geom hmem)))
  | .other tag, h => by
      rw [scaleGeometry_other]
termination_by g => sizeOf g
decreasing_by
  have h2 := List.sizeOf_lt_of_mem hmem
  simp only [Geometry.geometryCollection.sizeOf_spec]
  omega

theorem map_comp_id {β : Type} (l : List β) (F G : β → β)
    (h : ∀ x ∈ l, G (F x) = x) : (l.map F).map G = l := by
  rw [List.map_map]
  calc l.map (G ∘ F) = l.map id := List.map_congr_left h
    _ = l := List.map_id l

/-- Every position of a scaled geometry satisfies any predicate that holds of
every scalePosition output. -/
theorem posAll_scaleGeometry (Q : List α → Bool) (center : α × α) (k : α)
    (hQ : ∀ coord, Q (scalePosition center k coord) = true) :
    ∀ g : Geometry α, posAll Q (scaleGeometry g center k) = true
  | .point c => by
      rw [scaleGeometry_point, posAll_point]
      exact hQ c
  | .multiPoint cs => by
      rw [scaleGeometry_multiPoint, posAll_multiPoint, List.all_eq_true]
      intro x hx
      rw [List.mem_map] at hx
      obtain ⟨c, _, rfl⟩ := hx
      exact hQ c
  | .lineString cs => by
      rw [scaleGeometry_lineString, posAll_lineString, List.all_eq_true]
      intro x hx
      rw [List.mem_map] at hx
      obtain ⟨c, _, rfl⟩ := hx
      exact hQ c
  | .multiLineString cs => by
      rw [scaleGeometry_multiLineString, posAll_multiLineString, List.all_eq_true]
      intro line' hl'
      rw [List.mem_map] at hl'
      obtain ⟨line, _, rfl⟩ := hl'
      rw [List.all_eq_true]
      intro x hx
      rw [List.mem_map] at hx
      obtain ⟨c, _, rfl⟩ := hx
      exact hQ c
  | .polygon cs => by
      rw [scaleGeometry_polygon, posAll_polygon, List.all_eq_true]
      intro line' hl'
      rw [List.mem_map] at hl'
      obtain ⟨line, _, rfl⟩ := hl'
      rw [List.all_eq_true]
      intro x hx
      rw [List.mem_map] at hx
      obtain ⟨c, _, rfl⟩ := hx
      exact hQ c
  | .multiPolygon cs => by
      rw [scaleGeometry_multiPolygon, posAll_multiPolygon, List.all_eq_true]
      intro poly' hp'
      rw [List.mem_map] at hp'
      obtain ⟨poly, _, rfl⟩ := hp'
      rw [List.all_eq_true]
      intro ring' hr'
      rw [List.mem_map] at hr'
      obtain ⟨ring, _, rfl⟩ := hr'
      rw [List.all_eq_true]
      intro x hx
      rw [List.mem_map] at hx
      obtain ⟨c, _, rfl⟩ := hx
      exact hQ c
  | .geometryCollection gs => by
      rw [scaleGeometry_geometryCollection, posAll_geometryCollection,
        List.all_eq_true]
      intro g' hg'
      rw [List.mem_map] at hg'
      obtain ⟨geom, hmem, rfl⟩ := hg'
      exact posAll_scaleGeometry Q center k hQ geom
  | .other tag => by
      rw [scaleGeometry_other, posAll_other]
termination_by g => sizeOf g
decreasing_by
  have h2 := List.sizeOf_lt_of_mem hmem
  simp only [Geometry.geometryCollection.sizeOf_spec]
  omega

/-- Every scalePosition output starts with a clamped longitude/latitude pair
inside the valid ranges. -/
theorem posInRange_scalePosition (center : α × α) (k : α) (coord : List α) :
    posInRange (scalePosition center k coord) = true := by
  have h180 : (-180 : α) ≤ 180 := by norm_num
  have hmax : -(MAX_LATITUDE : α) ≤ MAX_LATITUDE := by
    rw [MAX_LATITUDE]
    norm_num
  obtain ⟨hl1, hl2⟩ :=
    clamp_mem (center.1 + (coord.headD 0 - center.1) * k) h180
  obtain ⟨hm1, hm2⟩ :=
    clamp_mem (center.2 + ((coord.drop 1).headD 0 - center.2) * k) hmax
  simp only [posInRange, scalePosition, List.headD_cons, List.drop_succ_cons,
    List.drop_zero, Bool.and_eq_true, decide_eq_true_eq]
  exact ⟨⟨⟨hl1, hl2⟩, hm1⟩, hm2⟩

/-- C3: scalePosition computes exactly the clamped linear formulas of the
source, hence every transformed position (and every position of a scaled
geometry) has longitude in [-180, 180] and latitude within ±MAX_LATITUDE,
never beyond. -/
theorem scalePosition_formula_and_clamp (center : α × α) (factor : α) :
    (∀ (lon lat : α) (rest : List α),
      scalePosition center factor (lon :: lat :: rest) =
        clamp (center.1 + (lon - center.1) * factor) (-180) 180 ::
          clamp (center.2 + (lat - center.2) * factor)
            (-MAX_LATITUDE) MAX_LATITUDE :: rest) ∧
    (∀ coord : List α, posInRange (scalePosition center factor coord) = true) ∧
    (∀ g : Geometry α, posAll posInRange (scaleGeometry g center factor) = true) ∧
    (∀ x : α, MAX_LATITUDE < x →
      clamp x (-MAX_LATITUDE) MAX_LATITUDE = MAX_LATITUDE) ∧
    (∀ x : α, x < -MAX_LATITUDE →
      clamp x (-MAX_LATITUDE) MAX_LATITUDE = -MAX_LATITUDE) := by
  have hM : -(MAX_LATITUDE : α) ≤ MAX_LATITUDE := by
    rw [MAX_LATITUDE]
    norm_num
  refine ⟨fun _ _ _ => rfl, posInRange_scalePosition center factor,
    posAll_scaleGeometry posInRange center factor
      (posInRange_scalePosition center factor),
    fun x hx => ?_, fun x hx => ?_⟩
  · rw [clamp, max_eq_left (le_trans hM hx.le), min_eq_right hx.le]
  · rw [clamp, max_eq_right hx.le, min_eq_left hM]

/-- C5: both position transforms turn `[lon, lat, ...rest]` into the
transformed pair followed by `rest` unchanged, the transformed pair depending
only on the first two numbers. -/
theorem position_transforms_preserve_tail (r : α × α → α × α) (center : α × α)
    (k lon lat : α) (rest : List α) :
    rotatePosition r (lon :: lat :: rest) =
        (r (lon, lat)).1 :: (r (lon, lat)).2 :: rest ∧
      (scalePosition center k (lon :: lat :: rest)).drop 2 = rest ∧
      (scalePosition center k (lon :: lat :: rest)).take 2 =
        scalePosition center k [lon, lat] ∧
      (rotatePosition r (lon :: lat :: rest)).take 2 = rotatePosition r [lon, lat] :=
  ⟨rfl, rfl, rfl, rfl⟩

/-- Scaling by k then by 1/k is the identity on a position on which neither
pass clamps. -/
theorem scalePosition_roundTrip (center : α × α) (k : α) (coord : List α)
    (hk : k ≠ 0) (h : roundTripOK center k coord = true) :
    scalePosition center (1 / k) (scalePosition center k coord) = coord := by
  simp only [roundTripOK, Bool.and_eq_true, decide_eq_true_eq] at h
  obtain ⟨⟨⟨⟨⟨⟨⟨⟨hlen, h1⟩, h2⟩, h3⟩, h4⟩, h5⟩, h6⟩, h7⟩, h8⟩ := h
  rcases coord with _ | ⟨lon, _ | ⟨lat, rest⟩⟩
  · simp at hlen
  · simp at hlen
  · simp only [List.headD_cons, List.drop_succ_cons,
      List.drop_zero] at h1 h2 h3 h4 h5 h6 h7 h8
    rw [scalePosition_cons, clamp_eq_self h5 h6, clamp_eq_self h7 h8,
      scalePosition_cons]
    have e1 : center.1 + (center.1 + (lon - center.1) * k - center.1) * (1 / k) =
        lon := by
      field_simp
    have e2 : center.2 + (center.2 + (lat - center.2) * k - center.2) * (1 / k) =
        lat := by
      field_simp
    rw [e1, e2, clamp_eq_self h1 h2, clamp_eq_self h3 h4]

/-- C8: scaling a geometry by a nonzero factor about a center and then by the
reciprocal factor about the same center returns the geometry exactly, whenever
no coordinate triggers the latitude or longitude clamp in either pass. -/
theorem scaleGeometry_roundTrip (center : α × α) (factor : α)
    (hk : factor ≠ 0) :
    ∀ g : Geometry α, posAll (roundTripOK center factor) g = true →
      scaleGeometry (scaleGeometry g center factor) center (1 / factor) = g
  | .point c, h => by
      rw [posAll_point] at h
      rw [scaleGeometry_point, scaleGeometry_point,
        scalePosition_roundTrip center factor c hk h]
  | .multiPoint cs, h => by
      rw [posAll_multiPoint, List.all_eq_true] at h
      rw [scaleGeometry_multiPoint, scaleGeometry_multiPoint]
      exact congrArg Geometry.multiPoint (map_comp_id cs _ _
        (fun c hc => scalePosition_roundTrip center factor c hk (h c hc)))
  | .lineString cs, h => by
      rw [posAll_lineString, List.all_eq_true] at h
      rw [scaleGeometry_lineString, scaleGeometry_lineString]
      exact congrArg Geometry.lineString (map_comp_id cs _ _
        (fun c hc => scalePosition_roundTrip center factor c hk (h c hc)))
  | .multiLineString cs, h => by
      rw [posAll_multiLineString, List.all_eq_true] at h
      simp only [List.all_eq_true] at h
      rw [scaleGeometry_multiLineString, scaleGeometry_multiLineString]
      refine congrArg Geometry.multiLineString
        (map_comp_id cs _ _ (fun line hline => ?_))
      exact map_comp_id line _ _
        (fun c hc => scalePosition_roundTrip center factor c hk (h line hline c hc))
  | .polygon cs, h => by
      rw [posAll_polygon, List.all_eq_true] at h
      simp only [List.all_eq_true] at h
      rw [scaleGeometry_polygon, scaleGeometry_polygon]
      refine congrArg Geometry.polygon
        (map_comp_id cs _ _ (fun line hline => ?_))
      exact map_comp_id line _ _
        (fun c hc => scalePosition_roundTrip center factor c hk (h line hline c hc))
  | .multiPolygon cs, h => by
      rw [posAll_multiPolygon, List.all_eq_true] at h
      simp only [List.all_eq_true] at h
      rw [scaleGeometry_multiPolygon, scaleGeometry_multiPolygon]
      refine congrArg Geometry.multiPolygon
        (map_comp_id cs _ _ (fun poly hpoly => ?_))
      refine map_comp_id poly _ _ (fun ring hring => ?_)
      exact map_comp_id ring _ _ (fun c hc =>
        scalePosition_roundTrip center factor c hk (h poly hpoly ring hring c hc))
  | .geometryCollection gs, h => by
      rw [posAll_geometryCollection, List.all_eq_true] at h
      rw [scaleGeometry_geometryCollection, scaleGeometry_geometryCollection]
      exact congrArg Geometry.geometryCollection (map_comp_id gs _ _
        (fun geom hmem => scaleGeometry_roundTrip center factor hk geom (h geom hmem)))
  | .other tag, h => by
      rw [scaleGeometry_other, scaleGeometry_other]
termination_by g => sizeOf g
decreasing_by
  have h2 := List.sizeOf_lt_of_mem hmem
  simp only [Geometry.geometryCollection.sizeOf_spec]
  omega

/-- C2: both geometry transforms preserve the exact tag and nesting shape of
every geometry whose positions are proper (length at least 2), and an unknown
geometry kind passes through unchanged instead of raising. -/
theorem geometry_transforms_preserve_shape (g : Geometry α)
    (r : α × α → α × α) (center : α × α) (k : α)
    (h : posAll (fun coord => decide (2 ≤ coord.length)) g = true) :
    shape (rotateGeometry g r) = shape g ∧
      shape (scaleGeometry g center k) = shape g ∧
      (∀ tag : String,
        rotateGeometry (Geometry.other tag) r = Geometry.other tag ∧
          scaleGeometry (Geometry.other tag) center k = Geometry.other tag) :=
  ⟨shape_rotateGeometry r g h, shape_scaleGeometry center k g h,
    fun tag => ⟨rotateGeometry_other r tag, scaleGeometry_other center k tag⟩⟩

/-- Witness for C2 on a concrete rational collection holding a point with an
elevation and a polygon. -/
theorem geometry_transforms_preserve_shape_witness :
    posAll (fun coord => decide (2 ≤ coord.length))
        (Geometry.geometryCollection [Geometry.point [(1 : ℚ), 2, 7],
          Geometry.polygon [[[0, 0], [1, 0], [1, 1]]]]) = true ∧
      shape (rotateGeometry
          (Geometry.geometryCollection [Geometry.point [(1 : ℚ), 2, 7],
            Geometry.polygon [[[0, 0], [1, 0], [1, 1]]]])
          (fun p => (p.2 + 1, p.1))) =
        shape (Geometry.geometryCollection [Geometry.point [(1 : ℚ), 2, 7],
          Geometry.polygon [[[0, 0], [1, 0], [1, 1]]]]) := by
  have hyp : posAll (fun coord => decide (2 ≤ coord.length))
      (Geometry.geometryCollection [Geometry.point [(1 : ℚ), 2, 7],
        Geometry.polygon [[[0, 0], [1, 0], [1, 1]]]]) = true := by
    rw [posAll_geometryCollection]
    simp only [List.all_cons, List.all_nil, posAll_point, posAll_polygon]
    decide
  exact ⟨hyp, (geometry_transforms_preserve_shape _ (fun p => (p.2 + 1, p.1))
    ((3 : ℚ), 4) 5 hyp).1⟩

/-- Counterexample to the literal 1e-6-degree reading of the C1 tolerance:
for the valid pair (0, 0) and (0.00005, 0) the angular distance is below the
code's epsilon, the identity fast path fires, and the anchor lands 0.00005
degrees away from the destination, fifty times 1e-6 degrees. -/
theorem anchor_tolerance_counterexample :
    createSphericalRotation (0, 0) (5e-5, 0) (0, 0) = (0, 0) ∧
      1e-6 < |(createSphericalRotation (0, 0) (5e-5, 0) (0, 0)).1 - (5e-5 : ℝ)| := by
  have hw : lonLatToVector (5e-5, 0) =
      (Real.cos (5e-5 * (Real.pi / 180)), Real.sin (5e-5 * (Real.pi / 180)),
        (0 : ℝ)) := by
    simp [lonLatToVector, DEG_TO_RAD]
  have hlam1 : (0 : ℝ) ≤ 5e-5 * (Real.pi / 180) := by positivity
  have hlam2 : 5e-5 * (Real.pi / 180) ≤ Real.pi := by
    nlinarith [Real.pi_pos]
  have hang : rotationAngle (0, 0) (5e-5, 0) = 5e-5 * (Real.pi / 180) := by
    rw [rotationAngle_eq_arccos, lonLatToVector_zero, hw]
    have hd : dot ((1 : ℝ), (0 : ℝ), (0 : ℝ))
        (Real.cos (5e-5 * (Real.pi / 180)), Real.sin (5e-5 * (Real.pi / 180)),
          (0 : ℝ)) = Real.cos (5e-5 * (Real.pi / 180)) := by
      simp [dot]
    rw [hd, Real.arccos_cos hlam1 hlam2]
  have hlt : rotationAngle (0, 0) (5e-5, 0) < ROTATION_EPSILON := by
    rw [hang, ROTATION_EPSILON]
    nlinarith [Real.pi_lt_d2]
  constructor
  · rw [createSphericalRotation_of_lt hlt]
  · rw [createSphericalRotation_of_lt hlt]
    have habs : |((0 : ℝ), (0 : ℝ)).1 - (5e-5 : ℝ)| = 5e-5 := by
      rw [show ((0 : ℝ), (0 : ℝ)).1 - (5e-5 : ℝ) = -(5e-5) by norm_num, abs_neg,
        abs_of_nonneg (by norm_num : (0 : ℝ) ≤ 5e-5)]
    rw [habs]
    norm_num

/-- Witness for C8 on a concrete rational polygon, factor 2 about (0, 5). -/
theorem scaleGeometry_roundTrip_witness :
    ((2 : ℚ) ≠ 0 ∧
      posAll (roundTripOK ((0 : ℚ), 5) 2)
        (Geometry.polygon [[[0, 0], [10, 0], [10, 10]]]) = true) ∧
      scaleGeometry
          (scaleGeometry (Geometry.polygon [[[0, 0], [10, 0], [10, 10]]])
            ((0 : ℚ), 5) 2) ((0 : ℚ), 5) (1 / 2) =
        Geometry.polygon [[[0, 0], [10, 0], [10, 10]]] := by
  have h1 : (2 : ℚ) ≠ 0 := by norm_num
  have h2 : posAll (roundTripOK ((0 : ℚ), 5) 2)
      (Geometry.polygon [[[0, 0], [10, 0], [10, 10]]]) = true := by
    rw [posAll_polygon]
    simp only [List.all_cons, List.all_nil, Bool.and_true, roundTripOK,
      List.headD_cons, List.drop_succ_cons, List.drop_zero, List.length_cons,
      List.length_nil, Bool.and_eq_true, decide_eq_true_eq]
    norm_num [MAX_LATITUDE]
  exact ⟨⟨h1, h2⟩, scaleGeometry_roundTrip ((0 : ℚ), 5) 2 h1 _ h2⟩

end WorldMap
